import Mathlib

/-!
Verification of the conversation orchestration engine of serena-cli-go.

The Go sources are shallowly embedded: chat messages, the tool-calling
loop of `Orchestrator.Chat`, tool execution (`executeToolCall`,
`formatToolResult`), session serialization (`FromOpenAIMessages`,
`ToOpenAIMessages`, `sanitizeName`, `Save`), context compaction
(`compactSession`, `buildTranscript`, `AppendArchive`) and the context
statistics (`ConversationStats`, `maybeAutoCompact`).

External effects are made explicit: the completion endpoint is an oracle
script of responses, tool execution is an oracle environment, time is a
parameter, and on-disk files are modelled by their content.
-/

namespace Serena

/-- Go `unicode.IsSpace`, restricted to the Latin-1 range (ASCII
whitespace plus NEL and NBSP); characters beyond that range never occur
in the whitespace positions this code trims. -/
def isSpaceGo (c : Char) : Bool :=
  c = ' ' || c = '\t' || c = '\n' || c = '\x0b' || c = '\x0c' || c = '\r' ||
    c.toNat = 0x85 || c.toNat = 0xA0

/-- Go `strings.TrimSpace`: drop whitespace from both ends. -/
def trimSpaceGo (s : String) : String :=
  String.mk (((s.toList.dropWhile isSpaceGo).reverse.dropWhile isSpaceGo).reverse)

/-- The literal `<think>` opening marker of `thinkTagPattern`. -/
def thinkOpen : List Char := "<think>".toList

/-- The literal `</think>` closing marker of `thinkTagPattern`. -/
def thinkClose : List Char := "</think>".toList

/-- The remainder of `l` after the first occurrence of `</think>`, or
`none` when `l` does not contain that marker. -/
def restAfterThinkClose : List Char → Option (List Char)
  | [] => none
  | c :: rest =>
    if thinkClose.isPrefixOf (c :: rest) then some ((c :: rest).drop thinkClose.length)
    else restAfterThinkClose rest

/-- Go `thinkTagPattern.ReplaceAllString(content, "")` for the regular
expression `(?s)<think>.*?</think>`: leftmost, non-greedy,
non-overlapping matches are deleted.  When a `<think>` has no later
`</think>` the rest of the input cannot contain any match at all, so it
is copied verbatim.  `fuel` bounds the recursion; every step consumes at
least one character, so the input length suffices. -/
def stripThinkAux : Nat → List Char → List Char
  | 0, l => l
  | fuel + 1, l =>
    match l with
    | [] => []
    | c :: rest =>
      if thinkOpen.isPrefixOf (c :: rest) then
        match restAfterThinkClose ((c :: rest).drop thinkOpen.length) with
        | some rem => stripThinkAux fuel rem
        | none => c :: rest
      else c :: stripThinkAux fuel rest

/-- Go `stripThinkTags`: removes delimited reasoning segments and trims
surrounding whitespace; the empty string is returned unchanged. -/
def stripThinkTags (content : String) : String :=
  if content = "" then content
  else trimSpaceGo (String.mk (stripThinkAux content.toList.length content.toList))

/-- The four `openai.ChatMessageRole*` constants the program uses. -/
inductive Role where
  | system
  | user
  | assistant
  | tool
deriving DecidableEq, Repr

/-- `openai.ToolCall` restricted to the fields the program reads and
writes (`Type` is constantly `"function"` and `Index` is unused). -/
structure ToolCall where
  id : String
  name : String
  arguments : String
deriving DecidableEq, Repr

/-- `openai.ChatCompletionMessage` restricted to the fields the program
uses; absent `tool_calls` is the empty list, absent `tool_call_id` the
empty string, exactly as in Go's zero values. -/
structure Message where
  role : Role
  content : String
  toolCalls : List ToolCall
  toolCallID : String
deriving DecidableEq, Repr

instance : Inhabited Message := ⟨⟨Role.user, "", [], ""⟩⟩

/-- Go `wrapUserTask`. -/
def wrapUserTask (userMsg : String) : String :=
  let trimmed := trimSpaceGo userMsg
  if trimmed = "" then "<task></task>"
  else
    "<task>\n<request>\n" ++ trimmed ++
      "\n</request>\n<guidance>\n- Focus on the user's request.\n- Use tools only when necessary.\n- Ask a clarifying question if the request is ambiguous.\n</guidance>\n</task>"

/-- The system message `Initialize` installs at index 0. -/
def mkSystemMessage (content : String) : Message := ⟨Role.system, content, [], ""⟩

/-- The user message `Chat` appends (content wrapped by `wrapUserTask`). -/
def mkUserMessage (userMsg : String) : Message := ⟨Role.user, wrapUserTask userMsg, [], ""⟩

/-- The assistant message `Chat` appends after each completion call. -/
def mkAssistantMessage (content : String) (toolCalls : List ToolCall) : Message :=
  ⟨Role.assistant, content, toolCalls, ""⟩

/-- The tool-result message `Chat` appends after each tool call. -/
def mkToolMessage (content toolCallID : String) : Message :=
  ⟨Role.tool, content, [], toolCallID⟩

/-- `Orchestrator.Initialize`: the conversation starts as the single
system-prompt message. -/
def initializeMessages (systemPrompt : String) : List Message :=
  [mkSystemMessage systemPrompt]

/-- `Orchestrator.Reset`: truncate to the first message when non-empty. -/
def resetMessages (msgs : List Message) : List Message :=
  if msgs.isEmpty then msgs else msgs.take 1

/-- `mcp.CallToolResult` content, as consumed by `formatToolResult`:
text blocks, image blocks (rendered by MIME type), embedded text
resources, and any other embedded resource (ignored by the switch). -/
inductive ContentBlock where
  | text (s : String)
  | image (mimeType : String)
  | embeddedText (s : String)
  | embeddedOther
deriving DecidableEq, Repr

/-- `mcp.CallToolResult` restricted to the fields the program reads. -/
structure CallToolResult where
  content : List ContentBlock
  isError : Bool
deriving DecidableEq, Repr

/-- The content-flattening loop of Go `formatToolResult`. -/
def flattenContent : List ContentBlock → String
  | [] => ""
  | ContentBlock.text s :: rest => s ++ flattenContent rest
  | ContentBlock.image m :: rest => "[Image: " ++ m ++ "]" ++ flattenContent rest
  | ContentBlock.embeddedText s :: rest => s ++ flattenContent rest
  | ContentBlock.embeddedOther :: rest => flattenContent rest

/-- Go `formatToolResult` on a non-nil result: flatten the blocks; a
result flagged as an error is rendered with a leading `"Error: "`. -/
def formatToolResult (result : CallToolResult) : String :=
  if result.isError then "Error: " ++ flattenContent result.content
  else flattenContent result.content

/-- Oracle for the effectful parts of `executeToolCall`: whether
`json.Unmarshal` accepts the raw argument string, the registered local
tool handlers (applied to the raw arguments, standing in for the parsed
argument map), and the MCP `CallTool` transport. -/
structure ExecEnv where
  parseOk : String → Bool
  localH : String → Option (String → Except String String)
  mcpCall : String → String → Except String CallToolResult

/-- Go `Orchestrator.executeToolCall`: parse the JSON arguments (a
failure is a hard error), dispatch to a local handler if one is
registered for the name (a handler error becomes `"Error: ..."` content
with the error flag, not a raised error), otherwise call the tool over
MCP (a transport error is a hard error; an error-flagged result becomes
formatted content).  `.ok (result, isError)` mirrors the Go
`(string, bool, nil)` return, `.error` the non-nil `err` return. -/
def executeToolCall (env : ExecEnv) (toolCall : ToolCall) : Except String (String × Bool) :=
  if toolCall.arguments ≠ "" ∧ env.parseOk toolCall.arguments = false then
    Except.error "failed to parse tool arguments"
  else
    match env.localH toolCall.name with
    | some handler =>
      match handler toolCall.arguments with
      | Except.error e => Except.ok ("Error: " ++ e, true)
      | Except.ok result => Except.ok (result, false)
    | none =>
      match env.mcpCall toolCall.name toolCall.arguments with
      | Except.error e => Except.error ("MCP tool call failed: " ++ e)
      | Except.ok result => Except.ok (formatToolResult result, result.isError)

/-- The per-iteration tool-execution loop of `Chat`: execute each tool
call in the order returned and append one `tool` message per call, whose
`tool_call_id` is the call's id; the first hard execution error aborts
(wrapped as Go's `"tool execution failed: %w"`). -/
def execCalls (env : ExecEnv) : List ToolCall → Except String (List Message)
  | [] => Except.ok []
  | tc :: rest =>
    match executeToolCall env tc with
    | Except.error e => Except.error ("tool execution failed: " ++ e)
    | Except.ok (result, _isError) =>
      match execCalls env rest with
      | Except.error e => Except.error e
      | Except.ok tms => Except.ok (mkToolMessage result tc.id :: tms)

/-- One completion-endpoint response: returned text and tool calls. -/
abbrev LLMResp := String × List ToolCall

/-- The `for len(toolCalls) > 0` loop of `Chat`.  `script` is the oracle
of the completion endpoint's remaining responses (an exhausted script
models a transport error on the next call); `msgs` is the conversation
built so far, `content`/`tcs` the stripped text and tool calls of the
most recent assistant message. -/
def chatLoop (env : ExecEnv) : List LLMResp → List Message → String → List ToolCall →
    Except String (List Message × String)
  | _script, msgs, content, [] => Except.ok (msgs, content)
  | script, msgs, _content, tc :: tcs =>
    match execCalls env (tc :: tcs) with
    | Except.error e => Except.error e
    | Except.ok tms =>
      match script with
      | [] => Except.error "LLM chat with tool results failed"
      | (c, tcs2) :: rest =>
        chatLoop env rest (msgs ++ tms ++ [mkAssistantMessage (stripThinkTags c) tcs2])
          (stripThinkTags c) tcs2

/-- Go `Orchestrator.Chat` over the oracle `script` of completion
responses: append the wrapped user message, take the first response
(an empty script models a transport failure of the first call), strip
its text, append the assistant message and run the tool loop.  On a hard
error Go leaves the partially extended `o.messages` in place and returns
`("", err)`; the model returns only the error, and all claims about the
resulting conversation quantify over successful turns. -/
def chat (env : ExecEnv) (script : List LLMResp) (msgs0 : List Message) (userMsg : String) :
    Except String (List Message × String) :=
  let msgs1 := msgs0 ++ [mkUserMessage userMsg]
  match script with
  | [] => Except.error "LLM chat failed"
  | (c, tcs) :: rest =>
    chatLoop env rest (msgs1 ++ [mkAssistantMessage (stripThinkTags c) tcs])
      (stripThinkTags c) tcs

/-- The text recorded in the tool message for `tc` when its execution
succeeds at the Go level (returns `(result, isError, nil)`). -/
def execText (env : ExecEnv) (tc : ToolCall) : String :=
  match executeToolCall env tc with
  | Except.ok p => p.1
  | Except.error _ => ""

/-- The block of tool messages a batch of tool calls contributes: one
`tool` message per call, in order, with matching `tool_call_id`. -/
def toolMsgsFor (env : ExecEnv) (tcs : List ToolCall) : List Message :=
  tcs.map (fun tc => mkToolMessage (execText env tc) tc.id)

/-- The messages a successful turn appends after the user message, as a
function of the consumed prefix of the response script: each response
contributes its assistant message (stripped text plus tool calls),
followed, when it carries tool calls, by their tool-result block and the
continuation. -/
def turnBody (env : ExecEnv) : List LLMResp → List Message
  | [] => []
  | (c, tcs) :: rest =>
    mkAssistantMessage (stripThinkTags c) tcs ::
      (if tcs.isEmpty then [] else toolMsgsFor env tcs ++ turnBody env rest)

/-- Hexadecimal digit for `goQuote`'s `\xHH` escapes. -/
def hexDigit (n : Nat) : Char :=
  if n < 10 then Char.ofNat (48 + n) else Char.ofNat (87 + n)

/-- Two-digit lowercase hexadecimal byte for `goQuote`. -/
def hexByte (n : Nat) : String :=
  String.mk [hexDigit (n / 16), hexDigit (n % 16)]

/-- Concatenation of a list of strings (a `strings.Builder` run). -/
def concatStrings : List String → String
  | [] => ""
  | s :: rest => s ++ concatStrings rest

/-- Go `strconv.Quote` escaping of one character, modelled on the ASCII
range: quote and backslash are escaped, control characters use the
standard Go escapes or `\xHH`, and printable characters pass through
(as printable runes do in Go). -/
def goQuoteChar (c : Char) : String :=
  if c = '"' then "\\\""
  else if c = '\\' then "\\\\"
  else if c = '\x07' then "\\a"
  else if c = '\x08' then "\\b"
  else if c = '\x0c' then "\\f"
  else if c = '\n' then "\\n"
  else if c = '\r' then "\\r"
  else if c = '\t' then "\\t"
  else if c = '\x0b' then "\\v"
  else if c.toNat < 32 || c.toNat = 127 then "\\x" ++ hexByte c.toNat
  else String.mk [c]

/-- Go `strconv.Quote` (the `%q` verb on a string). -/
def goQuote (s : String) : String :=
  "\"" ++ concatStrings (s.toList.map goQuoteChar) ++ "\""

/-- The system message `AddContext` appends: the trimmed content wrapped
in a `<context source=...>` envelope, the label rendered by `%q`. -/
def contextMessage (label content : String) : Message :=
  ⟨Role.system,
    "<context source=" ++ goQuote label ++ ">\n" ++ trimSpaceGo content ++ "\n</context>",
    [], ""⟩

/-- Go `Orchestrator.AddContext`: whitespace-only content is a no-op,
otherwise exactly one system message is appended at the end. -/
def addContext (label content : String) (msgs : List Message) : List Message :=
  if trimSpaceGo content = "" then msgs
  else msgs ++ [contextMessage label content]

/-- Go `ConversationStats` (the struct). -/
structure ConversationStats where
  messageCount : Nat
  toolCallCount : Nat
  charCount : Nat
  approxTokens : Nat
deriving DecidableEq, Repr

/-- The characters one message contributes to `CharCount`: the content
plus each tool call's name and arguments (Go `len` counts bytes, hence
`utf8ByteSize`). -/
def messageChars (m : Message) : Nat :=
  m.content.utf8ByteSize +
    (m.toolCalls.map (fun c => c.name.utf8ByteSize + c.arguments.utf8ByteSize)).sum

/-- Go `Orchestrator.ConversationStats`. -/
def conversationStats (msgs : List Message) : ConversationStats :=
  let charCount := (msgs.map messageChars).sum
  { messageCount := msgs.length
    toolCallCount := (msgs.map (fun m => m.toolCalls.length)).sum
    charCount := charCount
    approxTokens := if charCount > 0 then charCount / 4 else 0 }

/-- The `contextLimitTokens` constant of the REPL layer. -/
def contextLimitTokens : Nat := 200000

/-- `int(float64(contextLimitTokens) * autoCompactThreshold)` with
`autoCompactThreshold = 0.9`: the float64 product of `200000` and the
double nearest `0.9` rounds to exactly `180000.0`, which `int`
truncates to `180000`. -/
def autoCompactTokenLimit : Nat := 180000

/-- The trigger condition of `maybeAutoCompact`: the function returns
without compacting exactly when `stats.ApproxTokens` is below the
threshold. -/
def autoCompactTriggers (msgs : List Message) : Bool :=
  !((conversationStats msgs).approxTokens < autoCompactTokenLimit)

/-- `session.StoredToolCall`. -/
structure StoredToolCall where
  id : String
  name : String
  arguments : String
deriving DecidableEq, Repr

/-- `session.StoredMessage` (roles are stored as strings in Go; the
embedding keeps the role enum, which the Go code copies verbatim in both
directions). -/
structure StoredMessage where
  role : Role
  content : String
  toolCalls : List StoredToolCall
  toolCallID : String
deriving DecidableEq, Repr

/-- `session.SessionData`; `time.Time` values are modelled as `Nat` with
`0` as the zero value (`IsZero`). -/
structure SessionData where
  name : String
  createdAt : Nat
  updatedAt : Nat
  model : String
  systemPrompt : String
  messages : List StoredMessage
  archiveFile : String
  summaryFile : String
deriving DecidableEq, Repr

/-- The per-message body of `FromOpenAIMessages`. -/
def storedOfMessage (m : Message) : StoredMessage :=
  { role := m.role
    content := m.content
    toolCalls := m.toolCalls.map (fun call => ⟨call.id, call.name, call.arguments⟩)
    toolCallID := m.toolCallID }

/-- Go `session.FromOpenAIMessages`: every message is stored except a
message at index 0 whose role is `system`. -/
def fromOpenAIMessages (messages : List Message) : List StoredMessage :=
  match messages with
  | [] => []
  | first :: rest =>
    if first.role = Role.system then rest.map storedOfMessage
    else storedOfMessage first :: rest.map storedOfMessage

/-- The per-message body of `ToOpenAIMessages`. -/
def messageOfStored (m : StoredMessage) : Message :=
  { role := m.role
    content := m.content
    toolCalls := m.toolCalls.map (fun call => ⟨call.id, call.name, call.arguments⟩)
    toolCallID := m.toolCallID }

/-- Go `session.ToOpenAIMessages`: a fresh system message built from the
given prompt, followed by the rebuilt stored messages. -/
def toOpenAIMessages (systemPrompt : String) (messages : List StoredMessage) : List Message :=
  mkSystemMessage systemPrompt :: messages.map messageOfStored

/-- The character set `sanitizeName` retains. -/
def isAllowedRune (c : Char) : Bool :=
  ('a' ≤ c && c ≤ 'z') || ('0' ≤ c && c ≤ '9') || c = '-' || c = '_' || c = '.'

/-- ASCII lowercasing (Go `strings.ToLower`; mappings of characters
beyond ASCII never land in the retained character set for the names this
program handles, so they are immaterial after the filter). -/
def toLowerGo (c : Char) : Char :=
  if 'A' ≤ c && c ≤ 'Z' then Char.ofNat (c.toNat + 32) else c

/-- Go `session.sanitizeName`: trim, lowercase, replace spaces with
dashes, drop everything outside the allowed set, fall back to
`"default"` when the result (or the trimmed input) is empty. -/
def sanitizeName (name : String) : String :=
  let trimmed := trimSpaceGo name
  if trimmed = "" then "default"
  else
    let lowered := String.mk (trimmed.toList.map toLowerGo)
    let dashed := String.mk (lowered.toList.map (fun c => if c = ' ' then '-' else c))
    let mapped := String.mk (dashed.toList.filter isAllowedRune)
    if mapped = "" then "default" else mapped

/-- `sanitizeSessionName` of the REPL layer: a verbatim duplicate of
`session.sanitizeName` with the same `"default"` fallback. -/
def sanitizeSessionName (name : String) : String := sanitizeName name

/-- Go `Store.Path` (`filepath.Join(s.dir, sanitizeName(name)+".json")`). -/
def storePath (dir name : String) : String :=
  dir ++ "/" ++ sanitizeName name ++ ".json"

/-- Go `Store.Save` on the record itself: an empty name is rejected,
`created_at` is set only when unset, `updated_at` is always refreshed;
`now` stands for `time.Now()` (never the zero value). -/
def saveRecord (now : Nat) (session : SessionData) : Except String SessionData :=
  if session.name = "" then Except.error "session name is required"
  else
    let withCreated :=
      if session.createdAt = 0 then { session with createdAt := now } else session
    Except.ok { withCreated with updatedAt := now }

/-- The session directory modelled by content: a map from the sanitized
file key (Go: the `sanitizeName(name) + ".json"` path) to the stored
record.  `Save` writes the timestamped record at the key derived from
the record's own name. -/
def storeSave (st : String → Option SessionData) (now : Nat) (rec : SessionData) :
    String → Option SessionData :=
  match saveRecord now rec with
  | Except.error _ => st
  | Except.ok r => fun key => if key = sanitizeName r.name then some r else st key

/-- Go `Store.Load`: read the record at the sanitized name's path. -/
def storeLoad (st : String → Option SessionData) (name : String) : Option SessionData :=
  st (sanitizeName name)

/-- The `keep := 6` tail size of `compactSession`. -/
def compactKeep : Nat := 6

/-- The role tag `buildTranscript` writes (Go falls back to `"unknown"`
for an empty role string, which the role enum excludes). -/
def roleString : Role → String
  | Role.system => "system"
  | Role.user => "user"
  | Role.assistant => "assistant"
  | Role.tool => "tool"

/-- One message block of Go `buildTranscript`. -/
def transcriptOfMessage (m : Message) : String :=
  "[" ++ roleString m.role ++ "]\n" ++
    (if m.content ≠ "" then m.content ++ "\n" else "") ++
    concatStrings (m.toolCalls.map
      (fun call => "tool_call: " ++ call.name ++ " " ++ call.arguments ++ "\n")) ++
    "\n"

/-- Go `buildTranscript`: the role-tagged blocks, trimmed. -/
def buildTranscript (messages : List Message) : String :=
  trimSpaceGo (concatStrings (messages.map transcriptOfMessage))

/-- The timestamped header `AppendArchive` writes before each compaction
transcript (`timestamp` stands for `time.Now().Format(time.RFC3339)`). -/
def archiveHeader (timestamp : String) : String :=
  "\n---\nCompaction at " ++ timestamp ++ "\n---\n"

/-- Go `SessionState.AppendArchive` on the archive file's content:
empty content is a no-op, otherwise header plus content plus a newline
are appended.  (The Go function also no-ops when the session has no
archive path; sessions are always created with one.) -/
def appendArchive (archive timestamp content : String) : String :=
  if content = "" then archive
  else archive ++ archiveHeader timestamp ++ content ++ "\n"

/-- The synthetic assistant message `compactSession` builds from the
summary and the archive path hint. -/
def mkSummaryMessage (archivePath summary : String) : Message :=
  ⟨Role.assistant,
    "<summary>\n" ++ trimSpaceGo summary ++ "\n</summary>\n<archive>\n" ++ archivePath ++
      "\nUse session_search to look up details.\n</archive>",
    [], ""⟩

/-- Go `compactSession` on the conversation: `summarize` is the oracle
for `orch.Summarize` (the compaction-model completion call, stripped),
`archivePath` the session's archive path hint.  On success it returns
the replacement conversation, the transcript appended to the archive,
and the summary written to the summary file; a refusal returns the Go
error text and performs no replacement and no archive or summary
write. -/
def compactSession (summarize : String → String) (archivePath : String)
    (msgs : List Message) : Except String (List Message × String × String) :=
  if msgs.length < 4 then Except.error "not enough messages to compact yet"
  else if msgs.length - 1 ≤ compactKeep then
    Except.error "not enough history to compact (need more than 6 messages)"
  else
    let older := (msgs.drop 1).take (msgs.length - compactKeep - 1)
    let recent := msgs.drop (msgs.length - compactKeep)
    let transcript := buildTranscript older
    if transcript = "" then Except.error "nothing to compact"
    else
      let summary := summarize transcript
      Except.ok (msgs.headD default :: mkSummaryMessage archivePath summary :: recent,
        transcript, summary)

/-- A successful tool batch produces exactly the block described by
`toolMsgsFor`. -/
theorem execCalls_ok_eq (env : ExecEnv) :
    ∀ tcs tms, execCalls env tcs = Except.ok tms → tms = toolMsgsFor env tcs := by
  intro tcs
  induction tcs with
  | nil =>
    intro tms h
    simp only [execCalls, Except.ok.injEq] at h
    simp [toolMsgsFor, ← h]
  | cons tc rest ih =>
    intro tms h
    simp only [execCalls] at h
    split at h
    · exact Except.noConfusion h
    · rename_i result flag hx
      split at h
      · exact Except.noConfusion h
      · rename_i tms2 hr
        injection h with h
        subst h
        simp [toolMsgsFor, execText, hx, ih tms2 hr]

/-- Structure of a successful run of the tool-calling loop: either the
pending tool-call list was empty and the loop returned at once, or the
script splits at the first response with no tool calls and the
conversation grows by the pending tool block plus the interleaved
assistant/tool segments of the consumed responses. -/
theorem chatLoop_ok_struct (env : ExecEnv) :
    ∀ (script : List LLMResp) (base : List Message) (c : String) (tcs : List ToolCall)
      (out : List Message) (text : String),
      chatLoop env script base c tcs = Except.ok (out, text) →
      (tcs = [] ∧ out = base ∧ text = c) ∨
      (tcs ≠ [] ∧ ∃ pre cn post,
        script = pre ++ (cn, ([] : List ToolCall)) :: post ∧
        (∀ e ∈ pre, e.2 ≠ []) ∧
        text = stripThinkTags cn ∧
        out = base ++ toolMsgsFor env tcs ++ turnBody env (pre ++ [(cn, [])])) := by
  intro script
  induction script with
  | nil =>
    intro base c tcs out text h
    cases tcs with
    | nil =>
      simp only [chatLoop, Except.ok.injEq, Prod.mk.injEq] at h
      exact Or.inl ⟨rfl, h.1.symm, h.2.symm⟩
    | cons tc tcs =>
      exfalso
      simp only [chatLoop] at h
      split at h
      · exact Except.noConfusion h
      · exact Except.noConfusion h
  | cons resp rest ih =>
    intro base c tcs out text h
    cases tcs with
    | nil =>
      simp only [chatLoop, Except.ok.injEq, Prod.mk.injEq] at h
      exact Or.inl ⟨rfl, h.1.symm, h.2.symm⟩
    | cons tc tcs =>
      obtain ⟨c1, tcs1⟩ := resp
      simp only [chatLoop] at h
      split at h
      · exact Except.noConfusion h
      · rename_i tms hexec
        have htms := execCalls_ok_eq env (tc :: tcs) tms hexec
        subst htms
        refine Or.inr ⟨by simp, ?_⟩
        rcases ih _ _ _ _ _ h with ⟨htc, hout, htext⟩ | ⟨hne, pre, cn, post, hs, hpre, htext, hout⟩
        · subst htc
          refine ⟨[], c1, rest, by simp, by simp, htext, ?_⟩
          subst hout
          simp [turnBody]
        · refine ⟨(c1, tcs1) :: pre, cn, post, by simp [hs], ?_, htext, ?_⟩
          · intro e he
            rcases List.mem_cons.mp he with he | he
            · subst he; exact hne
            · exact hpre e he
          · subst hout
            cases tcs1 with
            | nil => exact absurd rfl hne
            | cons t1 ts1 => simp [turnBody]

/-- Claim C1: a successful `Chat` turn consumes the completion
responses up to and including the first one with zero tool calls,
returns that response's stripped text, and extends the conversation by
the wrapped user message followed by the assistant/tool segments of
`turnBody`; within every segment `toolMsgsFor` appends exactly one
`tool` message per `ToolCall`, in the order returned, each with
`tool_call_id` equal to the corresponding call's id. -/
theorem chat_appends_one_tool_message_per_call (env : ExecEnv) (script : List LLMResp)
    (msgs0 : List Message) (user : String) (msgs : List Message) (text : String)
    (h : chat env script msgs0 user = Except.ok (msgs, text)) :
    (∃ pre cn post,
      script = pre ++ (cn, ([] : List ToolCall)) :: post ∧
      (∀ e ∈ pre, e.2 ≠ []) ∧
      text = stripThinkTags cn ∧
      msgs = msgs0 ++ mkUserMessage user :: turnBody env (pre ++ [(cn, [])])) ∧
    (∀ tcs : List ToolCall,
      (toolMsgsFor env tcs).map (fun m => m.toolCallID) = tcs.map (fun tc => tc.id) ∧
      (toolMsgsFor env tcs).length = tcs.length ∧
      ∀ m ∈ toolMsgsFor env tcs, m.role = Role.tool) := by
  constructor
  · cases script with
    | nil => exact Except.noConfusion h
    | cons resp rest =>
      obtain ⟨c0, tcs0⟩ := resp
      simp only [chat] at h
      rcases chatLoop_ok_struct env _ _ _ _ _ _ h with
        ⟨htc, hout, htext⟩ | ⟨hne, pre, cn, post, hs, hpre, htext, hout⟩
      · subst htc
        refine ⟨[], c0, rest, by simp, by simp, htext, ?_⟩
        subst hout
        simp [turnBody]
      · refine ⟨(c0, tcs0) :: pre, cn, post, by simp [hs], ?_, htext, ?_⟩
        · intro e he
          rcases List.mem_cons.mp he with he | he
          · subst he; exact hne
          · exact hpre e he
        · subst hout
          cases tcs0 with
          | nil => exact absurd rfl hne
          | cons t0 ts0 => simp [turnBody]
  · intro tcs
    refine ⟨?_, ?_, ?_⟩
    · simp [toolMsgsFor, mkToolMessage]
    · simp [toolMsgsFor]
    · intro m hm
      rcases List.mem_map.mp hm with ⟨tc, _, rfl⟩
      rfl

/-- A concrete execution environment with one local tool named `t`. -/
def chatEnv1 : ExecEnv :=
  { parseOk := fun _ => true
    localH := fun n => if n = "t" then some (fun _ => Except.ok "res") else none
    mcpCall := fun _ _ => Except.error "no transport" }

/-- A concrete tool call issued by the scripted model. -/
def chatCall1 : ToolCall := ⟨"c1", "t", "{}"⟩

/-- A two-response script: one tool call, then a plain answer. -/
def chatScript1 : List LLMResp := [("ok", [chatCall1]), ("done", [])]

/-- The conversation the scripted turn produces. -/
def chatMsgs1 : List Message :=
  [mkUserMessage "go", mkAssistantMessage "ok" [chatCall1],
    mkToolMessage "res" "c1", mkAssistantMessage "done" []]

/-- Witness for claim C1 at the scripted turn above. -/
theorem chat_appends_one_tool_message_per_call_witness :
    (∃ pre cn post,
      chatScript1 = pre ++ (cn, ([] : List ToolCall)) :: post ∧
      (∀ e ∈ pre, e.2 ≠ []) ∧
      "done" = stripThinkTags cn ∧
      chatMsgs1 = [] ++ mkUserMessage "go" :: turnBody chatEnv1 (pre ++ [(cn, [])])) ∧
    (∀ tcs : List ToolCall,
      (toolMsgsFor chatEnv1 tcs).map (fun m => m.toolCallID) = tcs.map (fun tc => tc.id) ∧
      (toolMsgsFor chatEnv1 tcs).length = tcs.length ∧
      ∀ m ∈ toolMsgsFor chatEnv1 tcs, m.role = Role.tool) :=
  chat_appends_one_tool_message_per_call chatEnv1 chatScript1 [] "go" chatMsgs1 "done" rfl

/-- Claim C2: a tool invocation that runs but reports failure — a local
handler returning an error, or a remote result flagged as an error — is
not escalated: `executeToolCall` returns `Error: `-prefixed content with
a nil Go error, the loop appends it as the tool message and proceeds to
the next completion call; `executeToolCall` returns a hard error only
for malformed JSON arguments or an MCP transport error, and only a hard
error aborts the loop. -/
theorem tool_failure_not_escalated (env : ExecEnv) (tc : ToolCall) :
    (∀ handler e, env.localH tc.name = some handler →
      handler tc.arguments = Except.error e →
      (tc.arguments = "" ∨ env.parseOk tc.arguments = true) →
      executeToolCall env tc = Except.ok ("Error: " ++ e, true)) ∧
    (∀ res, env.localH tc.name = none →
      env.mcpCall tc.name tc.arguments = Except.ok res →
      res.isError = true →
      (tc.arguments = "" ∨ env.parseOk tc.arguments = true) →
      executeToolCall env tc = Except.ok ("Error: " ++ flattenContent res.content, true)) ∧
    (∀ e, executeToolCall env tc = Except.error e →
      (tc.arguments ≠ "" ∧ env.parseOk tc.arguments = false) ∨
      (env.localH tc.name = none ∧ ∃ e0, env.mcpCall tc.name tc.arguments = Except.error e0)) ∧
    (∀ (script : List LLMResp) (msgs : List Message) (content : String)
      (tc0 : ToolCall) (tcs : List ToolCall) (tms : List Message),
      execCalls env (tc0 :: tcs) = Except.ok tms →
      chatLoop env script msgs content (tc0 :: tcs) =
        (match script with
         | [] => Except.error "LLM chat with tool results failed"
         | (c, tcs2) :: rest =>
           chatLoop env rest (msgs ++ tms ++ [mkAssistantMessage (stripThinkTags c) tcs2])
             (stripThinkTags c) tcs2)) ∧
    (∀ (script : List LLMResp) (msgs : List Message) (content : String)
      (tc0 : ToolCall) (tcs : List ToolCall) (e : String),
      execCalls env (tc0 :: tcs) = Except.error e →
      chatLoop env script msgs content (tc0 :: tcs) = Except.error e) := by
  have hguard : ∀ hp : tc.arguments = "" ∨ env.parseOk tc.arguments = true,
      ¬(tc.arguments ≠ "" ∧ env.parseOk tc.arguments = false) := by
    intro hp hc
    rcases hp with hp | hp
    · exact hc.1 hp
    · rw [hp] at hc; exact Bool.noConfusion hc.2
  refine ⟨?_, ?_, ?_, ?_, ?_⟩
  · intro handler e hl hh hp
    simp [executeToolCall, hguard hp, hl, hh]
  · intro res hl hm herr hp
    simp [executeToolCall, hguard hp, hl, hm, formatToolResult, herr]
  · intro e h
    simp only [executeToolCall] at h
    split at h
    · rename_i hcond
      exact Or.inl hcond
    · split at h
      · split at h
        · exact Except.noConfusion h
        · exact Except.noConfusion h
      · rename_i hl
        split at h
        · rename_i e0 hm
          exact Or.inr ⟨hl, e0, hm⟩
        · exact Except.noConfusion h
  · intro script msgs content tc0 tcs tms hexec
    simp [chatLoop, hexec]
  · intro script msgs content tc0 tcs e hexec
    simp [chatLoop, hexec]

/-- An environment whose only local tool handler always fails. -/
def failEnv : ExecEnv :=
  { parseOk := fun _ => true
    localH := fun n => if n = "boom" then some (fun _ => Except.error "kaput") else none
    mcpCall := fun _ _ => Except.error "down" }

/-- A tool call that hits the failing handler. -/
def failCall : ToolCall := ⟨"c9", "boom", ""⟩

/-- Witness for claim C2: the failing local handler yields error-flagged
content, not a hard error. -/
theorem tool_failure_not_escalated_witness :
    executeToolCall failEnv failCall = Except.ok ("Error: kaput", true) :=
  (tool_failure_not_escalated failEnv failCall).1
    (fun _ => Except.error "kaput") "kaput" rfl rfl (Or.inl rfl)

/-- Trimming cannot erase a string whose first character is not
whitespace. -/
theorem trimSpaceGo_mk_cons_ne (c : Char) (l : List Char) (hc : isSpaceGo c = false) :
    trimSpaceGo (String.mk (c :: l)) ≠ "" := by
  intro h
  have h2 : ((((String.mk (c :: l)).toList.dropWhile
      isSpaceGo).reverse.dropWhile isSpaceGo).reverse) = [] := by
    have := congrArg String.data h
    simpa [trimSpaceGo] using this
  rw [List.reverse_eq_nil_iff] at h2
  have h3 : ∀ x ∈ ((String.mk (c :: l)).toList.dropWhile isSpaceGo).reverse,
      isSpaceGo x := List.dropWhile_eq_nil_iff.mp h2
  have h4 : List.dropWhile isSpaceGo (c :: l) = c :: l := by
    simp [List.dropWhile_cons, hc]
  have h5 : isSpaceGo c = true := h3 c (by simp [h4])
  rw [hc] at h5
  exact Bool.noConfusion h5

/-- Every transcript block starts with the `[` of its role tag. -/
theorem transcriptOfMessage_data (m : Message) (s : String) :
    ∃ l, (transcriptOfMessage m ++ s).data = '[' :: l := by
  have hb : ("[" : String).data = ['['] := rfl
  simp only [transcriptOfMessage, String.data_append, hb, List.cons_append, List.nil_append,
    List.append_assoc]
  exact ⟨_, rfl⟩

/-- The transcript of a non-empty message list is non-empty: Go's
`transcript == ""` refusal cannot fire once the history guard has
passed. -/
theorem buildTranscript_cons_ne (m : Message) (rest : List Message) :
    buildTranscript (m :: rest) ≠ "" := by
  obtain ⟨l, hl⟩ := transcriptOfMessage_data m (concatStrings (rest.map transcriptOfMessage))
  have hmk : concatStrings ((m :: rest).map transcriptOfMessage) = String.mk ('[' :: l) := by
    apply String.ext
    simpa [concatStrings] using hl
  simp only [buildTranscript, hmk]
  exact trimSpaceGo_mk_cons_ne '[' l (by decide)

/-- Claim C3: with more than `compactKeep + 1` messages (so at least 8),
compaction succeeds, the replacement conversation is exactly the
original first message, the summary wrapper, then the 6 most recent
messages — `2 + compactKeep = 8` messages in total — and the archive
file grows by the timestamped header plus the transcript of the older
segment (the messages strictly between index 0 and the tail),
unchanged. -/
theorem compact_sufficient_history (summarize : String → String)
    (archivePath archive timestamp : String) (msgs : List Message)
    (h : 8 ≤ msgs.length) :
    ∃ newMsgs transcript summary,
      compactSession summarize archivePath msgs = Except.ok (newMsgs, transcript, summary) ∧
      transcript = buildTranscript ((msgs.drop 1).take (msgs.length - compactKeep - 1)) ∧
      summary = summarize transcript ∧
      newMsgs = msgs.headD default :: mkSummaryMessage archivePath summary ::
        msgs.drop (msgs.length - compactKeep) ∧
      newMsgs.length = 2 + compactKeep ∧
      appendArchive archive timestamp transcript =
        archive ++ archiveHeader timestamp ++ transcript ++ "\n" := by
  obtain ⟨o, os, ho⟩ : ∃ o os,
      (msgs.drop 1).take (msgs.length - compactKeep - 1) = o :: os := by
    cases hcase : (msgs.drop 1).take (msgs.length - compactKeep - 1) with
    | nil =>
      exfalso
      have h1 := congrArg List.length hcase
      simp [List.length_take, List.length_drop, compactKeep] at h1
      omega
    | cons o os => exact ⟨o, os, rfl⟩
  have htne : buildTranscript ((msgs.drop 1).take (msgs.length - compactKeep - 1)) ≠ "" := by
    rw [ho]
    exact buildTranscript_cons_ne o os
  have hmain : compactSession summarize archivePath msgs =
      Except.ok (msgs.headD default :: mkSummaryMessage archivePath
          (summarize (buildTranscript
            ((msgs.drop 1).take (msgs.length - compactKeep - 1)))) ::
          msgs.drop (msgs.length - compactKeep),
        buildTranscript ((msgs.drop 1).take (msgs.length - compactKeep - 1)),
        summarize (buildTranscript ((msgs.drop 1).take (msgs.length - compactKeep - 1)))) := by
    simp only [compactSession]
    rw [if_neg (by omega : ¬ msgs.length < 4)]
    rw [if_neg (by unfold compactKeep; omega : ¬ msgs.length - 1 ≤ compactKeep)]
    rw [if_neg htne]
  refine ⟨_, _, _, hmain, rfl, rfl, rfl, ?_, ?_⟩
  · simp only [List.length_cons, List.length_drop, compactKeep]
    omega
  · simp only [appendArchive]
    rw [if_neg htne]

/-- The identity oracle for the summarizer. -/
def idSummarize : String → String := fun s => s

/-- An eight-message conversation for the compaction witness. -/
def compactMsgs8 : List Message :=
  [mkSystemMessage "sys", ⟨Role.user, "u1", [], ""⟩, ⟨Role.assistant, "a1", [], ""⟩,
    ⟨Role.user, "u2", [], ""⟩, ⟨Role.assistant, "a2", [], ""⟩,
    ⟨Role.user, "u3", [], ""⟩, ⟨Role.assistant, "a3", [], ""⟩, ⟨Role.user, "u4", [], ""⟩]

/-- Witness for claim C3 on the eight-message conversation. -/
theorem compact_sufficient_history_witness :
    ∃ newMsgs transcript summary,
      compactSession idSummarize "arch" compactMsgs8 =
        Except.ok (newMsgs, transcript, summary) ∧
      transcript = buildTranscript
        ((compactMsgs8.drop 1).take (compactMsgs8.length - compactKeep - 1)) ∧
      summary = idSummarize transcript ∧
      newMsgs = compactMsgs8.headD default :: mkSummaryMessage "arch" summary ::
        compactMsgs8.drop (compactMsgs8.length - compactKeep) ∧
      newMsgs.length = 2 + compactKeep ∧
      appendArchive "A" "T" transcript = "A" ++ archiveHeader "T" ++ transcript ++ "\n" :=
  compact_sufficient_history idSummarize "arch" "A" "T" compactMsgs8 (by decide)

/-- A three-message conversation (system, user, assistant). -/
def shortMsgs3 : List Message :=
  [mkSystemMessage "sys", ⟨Role.user, "u", [], ""⟩, ⟨Role.assistant, "a", [], ""⟩]

/-- Counterexample to claim C4 as stated: at three messages (fewer than
8) compaction is refused, but the policy error reads `not enough
messages to compact yet`, not the `not enough history` text the claim
names — that text only appears from four messages up. -/
theorem compact_refusal_text_counterexample :
    compactSession idSummarize "arch" shortMsgs3 =
      Except.error "not enough messages to compact yet" ∧
    "not enough history".toList.isPrefixOf "not enough messages to compact yet".toList = false ∧
    ¬ ∃ e, compactSession idSummarize "arch" shortMsgs3 = Except.error e ∧
        "not enough history".toList.isPrefixOf e.toList = true := by
  refine ⟨rfl, by decide, ?_⟩
  rintro ⟨e, he, hp⟩
  rw [show compactSession idSummarize "arch" shortMsgs3 =
      Except.error "not enough messages to compact yet" from rfl] at he
  injection he with he2
  rw [← he2] at hp
  exact absurd hp (by decide)

/-- Claim C4, amended: every conversation with fewer than 8 total
messages is refused with a policy error and nothing is produced (no
replacement conversation, no archive append, no summary) — the error
text is `not enough history to compact (need more than 6 messages)`
when the conversation has at least 4 messages, and `not enough messages
to compact yet` when it has fewer than 4. -/
theorem compact_insufficient_refused (summarize : String → String) (archivePath : String)
    (msgs : List Message) (h : msgs.length < 8) :
    ∃ e, compactSession summarize archivePath msgs = Except.error e ∧
      (4 ≤ msgs.length → e = "not enough history to compact (need more than 6 messages)") ∧
      (msgs.length < 4 → e = "not enough messages to compact yet") ∧
      ∀ r, compactSession summarize archivePath msgs ≠ Except.ok r := by
  by_cases h4 : msgs.length < 4
  · refine ⟨"not enough messages to compact yet", ?_, fun hc => absurd hc (by omega),
      fun _ => rfl, ?_⟩
    · simp only [compactSession]
      rw [if_pos h4]
    · intro r hr
      simp only [compactSession] at hr
      rw [if_pos h4] at hr
      exact Except.noConfusion hr
  · have hk : msgs.length - 1 ≤ compactKeep := by unfold compactKeep; omega
    refine ⟨"not enough history to compact (need more than 6 messages)", ?_,
      fun _ => rfl, fun hc => absurd hc h4, ?_⟩
    · simp only [compactSession]
      rw [if_neg h4, if_pos hk]
    · intro r hr
      simp only [compactSession] at hr
      rw [if_neg h4, if_pos hk] at hr
      exact Except.noConfusion hr

/-- Witness for the amended claim C4 at the three-message
conversation. -/
theorem compact_insufficient_refused_witness :
    ∃ e, compactSession idSummarize "arch" shortMsgs3 = Except.error e ∧
      (4 ≤ shortMsgs3.length →
        e = "not enough history to compact (need more than 6 messages)") ∧
      (shortMsgs3.length < 4 → e = "not enough messages to compact yet") ∧
      ∀ r, compactSession idSummarize "arch" shortMsgs3 ≠ Except.ok r :=
  compact_insufficient_refused idSummarize "arch" shortMsgs3 (by decide)

/-- Storing and rebuilding a tool-call list preserves id, name and
arguments (structure eta collapses the field-by-field copies). -/
theorem toolCalls_roundtrip (l : List ToolCall) :
    (l.map (fun call => (⟨call.id, call.name, call.arguments⟩ : StoredToolCall))).map
      (fun call => (⟨call.id, call.name, call.arguments⟩ : ToolCall)) = l := by
  induction l with
  | nil => rfl
  | cons a t ih => simp [ih]

/-- Storing then rebuilding one message is the identity on role,
content, tool calls and tool_call_id. -/
theorem messageOfStored_storedOfMessage (m : Message) :
    messageOfStored (storedOfMessage m) = m := by
  cases m with
  | mk role content toolCalls toolCallID =>
    simp only [messageOfStored, storedOfMessage, Message.mk.injEq]
    exact ⟨trivial, trivial, toolCalls_roundtrip toolCalls, trivial⟩

/-- Claim C5: for a conversation whose first message is a system
message, serializing to the stored form (which excludes index 0) and
rebuilding from the record's system prompt reproduces the original tail
byte-for-byte — role, content, tool_call_id and every tool call's id,
name and arguments, in order. -/
theorem session_roundtrip (systemPrompt : String) (m : Message) (ms : List Message)
    (h : m.role = Role.system) :
    toOpenAIMessages systemPrompt (fromOpenAIMessages (m :: ms)) =
      mkSystemMessage systemPrompt :: ms := by
  simp only [fromOpenAIMessages, toOpenAIMessages]
  rw [if_pos h]
  have hcomp : messageOfStored ∘ storedOfMessage = id := funext messageOfStored_storedOfMessage
  rw [List.map_map, hcomp, List.map_id]

/-- A conversation tail touching every preserved field. -/
def sessionTailMsgs : List Message :=
  [⟨Role.user, "u", [], ""⟩,
    ⟨Role.assistant, "a", [⟨"id1", "n1", "\x7b\"x\":1\x7d"⟩], ""⟩,
    ⟨Role.tool, "r", [], "id1"⟩]

/-- Witness for claim C5 on a concrete conversation. -/
theorem session_roundtrip_witness :
    toOpenAIMessages "sp" (fromOpenAIMessages (mkSystemMessage "sp" :: sessionTailMsgs)) =
      mkSystemMessage "sp" :: sessionTailMsgs :=
  session_roundtrip "sp" (mkSystemMessage "sp") sessionTailMsgs rfl

/-- A successful turn only ever appends to the conversation it was
given. -/
theorem chat_ok_extends (env : ExecEnv) (script : List LLMResp) (msgs0 : List Message)
    (user : String) (out : List Message × String)
    (h : chat env script msgs0 user = Except.ok out) :
    ∃ l, out.1 = msgs0 ++ l := by
  cases script with
  | nil => exact Except.noConfusion h
  | cons resp rest =>
    obtain ⟨c0, tcs0⟩ := resp
    obtain ⟨out1, out2⟩ := out
    simp only [chat] at h
    rcases chatLoop_ok_struct env _ _ _ _ _ _ h with
      ⟨-, hout, -⟩ | ⟨-, pre, cn, post, -, -, -, hout⟩
    · exact ⟨_, by rw [hout, List.append_assoc]⟩
    · exact ⟨_, by rw [hout]; simp only [List.append_assoc]; rfl⟩

/-- A successful compaction keeps the original first message at the
head of the replacement conversation. -/
theorem compact_ok_head (summarize : String → String) (archivePath : String)
    (msgs : List Message) (out : List Message × String × String)
    (h : compactSession summarize archivePath msgs = Except.ok out) :
    ∃ t, out.1 = msgs.headD default :: t := by
  simp only [compactSession] at h
  split at h
  · exact Except.noConfusion h
  · split at h
    · exact Except.noConfusion h
    · split at h
      · exact Except.noConfusion h
      · injection h with h2
        exact ⟨_, by rw [← h2]⟩

/-- The conversation states reachable through the public operations:
initialization, session load, a successful chat turn, context
injection, a successful compaction, and reset. -/
inductive Reachable : List Message → Prop where
  | init (systemPrompt : String) : Reachable (initializeMessages systemPrompt)
  | load (systemPrompt : String) (stored : List StoredMessage) :
      Reachable (toOpenAIMessages systemPrompt stored)
  | chatStep (env : ExecEnv) (script : List LLMResp) (user : String)
      (msgs : List Message) (out : List Message × String) :
      Reachable msgs → chat env script msgs user = Except.ok out → Reachable out.1
  | addContextStep (label content : String) (msgs : List Message) :
      Reachable msgs → Reachable (addContext label content msgs)
  | compactStep (summarize : String → String) (archivePath : String)
      (msgs : List Message) (out : List Message × String × String) :
      Reachable msgs → compactSession summarize archivePath msgs = Except.ok out →
      Reachable out.1
  | resetStep (msgs : List Message) : Reachable msgs → Reachable (resetMessages msgs)

/-- Claim C6: every conversation reachable through the public
operations is non-empty and carries a system-role message at index 0
(the active system prompt, as installed by `Initialize` or rebuilt by a
session load), and `Reset` truncates the conversation to exactly that
element. -/
theorem head_system_invariant (msgs : List Message) (h : Reachable msgs) :
    msgs ≠ [] ∧ (∃ m rest, msgs = m :: rest ∧ m.role = Role.system) ∧
      resetMessages msgs = [msgs.headD default] := by
  induction h with
  | init sp =>
    exact ⟨by simp [initializeMessages], ⟨mkSystemMessage sp, [], rfl, rfl⟩, rfl⟩
  | load sp stored =>
    exact ⟨by simp [toOpenAIMessages], ⟨mkSystemMessage sp, _, rfl, rfl⟩, rfl⟩
  | chatStep env script user msgs out hr heq ih =>
    obtain ⟨-, ⟨m, rest, hm, hrole⟩, -⟩ := ih
    obtain ⟨l, hl⟩ := chat_ok_extends env script msgs user out heq
    subst hm
    rw [List.cons_append] at hl
    exact ⟨by simp [hl], ⟨m, rest ++ l, hl, hrole⟩, by simp [hl, resetMessages]⟩
  | addContextStep label content msgs hr ih =>
    obtain ⟨-, ⟨m, rest, hm, hrole⟩, -⟩ := ih
    subst hm
    by_cases hc : trimSpaceGo content = ""
    · rw [addContext, if_pos hc]
      exact ⟨by simp, ⟨m, rest, rfl, hrole⟩, by simp [resetMessages]⟩
    · rw [addContext, if_neg hc, List.cons_append]
      exact ⟨by simp, ⟨m, rest ++ [contextMessage label content], rfl, hrole⟩,
        by simp [resetMessages]⟩
  | compactStep summarize archivePath msgs out hr heq ih =>
    obtain ⟨-, ⟨m, rest, hm, hrole⟩, -⟩ := ih
    obtain ⟨t, ht⟩ := compact_ok_head summarize archivePath msgs out heq
    subst hm
    simp only [List.headD_cons] at ht
    exact ⟨by simp [ht], ⟨m, t, ht, hrole⟩, by simp [ht, resetMessages]⟩
  | resetStep msgs hr ih =>
    obtain ⟨-, ⟨m, rest, hm, hrole⟩, -⟩ := ih
    subst hm
    rw [show resetMessages (m :: rest) = [m] by simp [resetMessages]]
    exact ⟨by simp, ⟨m, [], rfl, hrole⟩, by simp [resetMessages]⟩

/-- Witness for claim C6 at a freshly initialized conversation. -/
theorem head_system_invariant_witness :
    initializeMessages "prompt" ≠ [] ∧
    (∃ m rest, initializeMessages "prompt" = m :: rest ∧ m.role = Role.system) ∧
    resetMessages (initializeMessages "prompt") =
      [(initializeMessages "prompt").headD default] :=
  head_system_invariant (initializeMessages "prompt") (Reachable.init "prompt")

/-- Claim C7: the approximate token count is the character count
divided by 4 (so a 1000-character conversation counts 250 tokens), and
auto-compaction triggers exactly when it reaches the 180000-token
threshold — 90% of the 200000-token budget — equivalently 720000
characters. -/
theorem stats_and_autocompact (msgs : List Message) :
    (conversationStats msgs).approxTokens = (conversationStats msgs).charCount / 4 ∧
    ((conversationStats msgs).charCount = 1000 →
      (conversationStats msgs).approxTokens = 250) ∧
    (autoCompactTriggers msgs = true ↔
      autoCompactTokenLimit ≤ (conversationStats msgs).approxTokens) ∧
    (autoCompactTriggers msgs = true ↔ 720000 ≤ (conversationStats msgs).charCount) := by
  have h1 : (conversationStats msgs).approxTokens =
      if (conversationStats msgs).charCount > 0 then (conversationStats msgs).charCount / 4
      else 0 := rfl
  have htrig : autoCompactTriggers msgs = true ↔
      autoCompactTokenLimit ≤ (conversationStats msgs).approxTokens := by
    simp [autoCompactTriggers, Nat.not_lt]
  refine ⟨?_, ?_, htrig, ?_⟩
  · rw [h1]
    split <;> omega
  · intro hcc
    rw [h1, hcc]
    norm_num
  · rw [htrig, h1]
    simp only [autoCompactTokenLimit]
    split <;> omega

/-- A single message carrying 1000 bytes of content. -/
def statsMsgs1000 : List Message :=
  [⟨Role.user, String.mk (List.replicate 1000 'a'), [], ""⟩]

set_option maxRecDepth 8000 in
/-- Witness for claim C7: the 1000-character conversation counts 250
approximate tokens. -/
theorem stats_and_autocompact_witness :
    (conversationStats statsMsgs1000).approxTokens = 250 :=
  (stats_and_autocompact statsMsgs1000).2.1 rfl

/-- Whatever the input, `sanitizeName` produces a non-empty string over
the retained character set. -/
theorem sanitizeName_allowed (name : String) :
    (∀ c ∈ (sanitizeName name).toList, isAllowedRune c = true) ∧ sanitizeName name ≠ "" := by
  simp only [sanitizeName]
  split
  · exact ⟨by decide, by decide⟩
  · split
    · exact ⟨by decide, by decide⟩
    · rename_i h2
      refine ⟨?_, h2⟩
      intro c hc
      exact List.of_mem_filter hc

/-- Claim C8: sanitization yields a lowercase slug over `a-z`, `0-9`,
`-`, `_`, `.` with empty results falling back to `default`;
`"My Project!"` and `"MY PROJECT!"` both sanitize to `"my-project"`,
and any two names with equal sanitizations address the same path, so a
record saved under one name is returned when loading the other. -/
theorem sanitize_and_collision (dir name n2 : String) (st : String → Option SessionData)
    (now : Nat) (rec : SessionData) :
    (∀ c ∈ (sanitizeName name).toList, isAllowedRune c = true) ∧
    sanitizeName name ≠ "" ∧
    sanitizeSessionName "My Project!" = "my-project" ∧
    sanitizeSessionName "MY PROJECT!" = "my-project" ∧
    sanitizeName "!!!" = "default" ∧
    (sanitizeName rec.name = sanitizeName n2 →
      storePath dir rec.name = storePath dir n2 ∧
      (rec.name ≠ "" → ∃ r, saveRecord now rec = Except.ok r ∧
        storeLoad (storeSave st now rec) n2 = some r)) := by
  refine ⟨(sanitizeName_allowed name).1, (sanitizeName_allowed name).2,
    by decide, by decide, by decide, ?_⟩
  intro hsan
  refine ⟨by simp only [storePath, hsan], ?_⟩
  intro hname
  have hs : saveRecord now rec = Except.ok
      { (if rec.createdAt = 0 then { rec with createdAt := now } else rec) with
        updatedAt := now } := by
    simp only [saveRecord]
    rw [if_neg hname]
  refine ⟨_, hs, ?_⟩
  have hRname : ({ (if rec.createdAt = 0 then { rec with createdAt := now } else rec) with
      updatedAt := now } : SessionData).name = rec.name := by
    by_cases hc : rec.createdAt = 0 <;> simp [hc]
  simp only [storeLoad, storeSave, hs]
  rw [if_pos (by rw [hRname, ← hsan] : sanitizeName n2 = sanitizeName
    ({ (if rec.createdAt = 0 then { rec with createdAt := now } else rec) with
      updatedAt := now } : SessionData).name)]

/-- A session record with both timestamps unset. -/
def recW : SessionData := ⟨"sess", 0, 0, "model-a", "sp", [], "sess_archive.txt", "sess_summary.md"⟩

/-- Witness for claim C8: saving under `My Project!` and loading
`MY PROJECT!` returns the saved record. -/
theorem sanitize_and_collision_witness :
    (∀ c ∈ (sanitizeName "My Project!").toList, isAllowedRune c = true) ∧
    sanitizeName "My Project!" ≠ "" ∧
    sanitizeSessionName "My Project!" = "my-project" ∧
    sanitizeSessionName "MY PROJECT!" = "my-project" ∧
    sanitizeName "!!!" = "default" ∧
    (sanitizeName ({ recW with name := "My Project!" } : SessionData).name =
        sanitizeName "MY PROJECT!" →
      storePath "d" ({ recW with name := "My Project!" } : SessionData).name =
        storePath "d" "MY PROJECT!" ∧
      (({ recW with name := "My Project!" } : SessionData).name ≠ "" →
        ∃ r, saveRecord 5 { recW with name := "My Project!" } = Except.ok r ∧
          storeLoad (storeSave (fun _ => none) 5 { recW with name := "My Project!" })
            "MY PROJECT!" = some r)) :=
  sanitize_and_collision "d" "My Project!" "MY PROJECT!" (fun _ => none) 5
    { recW with name := "My Project!" }

/-- Claim C9: `Save` sets `created_at` only when unset and always
refreshes `updated_at`, so a second save with no intervening mutation
changes only `updated_at` — the second saved record is the first with
`updated_at` replaced, every other field untouched. -/
theorem save_idempotent (rec : SessionData) (t1 t2 : Nat) (h1 : t1 ≠ 0)
    (hn : rec.name ≠ "") :
    ∃ rec1 rec2,
      saveRecord t1 rec = Except.ok rec1 ∧
      saveRecord t2 rec1 = Except.ok rec2 ∧
      rec1.createdAt = (if rec.createdAt = 0 then t1 else rec.createdAt) ∧
      rec1.updatedAt = t1 ∧
      rec2 = { rec1 with updatedAt := t2 } := by
  by_cases hc : rec.createdAt = 0
  · refine ⟨{ rec with createdAt := t1, updatedAt := t1 }, _, ?_, ?_, by simp [hc], rfl, rfl⟩
    · simp only [saveRecord]
      rw [if_neg hn, if_pos hc]
    · simp only [saveRecord]
      rw [if_neg hn, if_neg h1]
  · refine ⟨{ rec with updatedAt := t1 }, _, ?_, ?_, by simp [hc], rfl, rfl⟩
    · simp only [saveRecord]
      rw [if_neg hn, if_neg hc]
    · simp only [saveRecord]
      rw [if_neg hn, if_neg hc]

/-- Witness for claim C9 at a fresh record saved at times 5 and 9. -/
theorem save_idempotent_witness :
    ∃ rec1 rec2,
      saveRecord 5 recW = Except.ok rec1 ∧
      saveRecord 9 rec1 = Except.ok rec2 ∧
      rec1.createdAt = (if recW.createdAt = 0 then 5 else recW.createdAt) ∧
      rec1.updatedAt = 5 ∧
      rec2 = { rec1 with updatedAt := 9 } :=
  save_idempotent recW 5 9 (by decide) (by decide)

/-- Claim C10: `AddContext` with whitespace-only content leaves the
conversation unchanged; otherwise it appends exactly one system-role
message — the trimmed content wrapped in the `<context source=...>`
envelope — at the end of the conversation, so system-role messages can
sit at indices other than 0. -/
theorem addContext_spec (label content : String) (msgs : List Message) :
    (trimSpaceGo content = "" → addContext label content msgs = msgs) ∧
    (trimSpaceGo content ≠ "" →
      addContext label content msgs = msgs ++ [contextMessage label content] ∧
      (addContext label content msgs).length = msgs.length + 1 ∧
      (contextMessage label content).role = Role.system ∧
      (contextMessage label content).content =
        "<context source=" ++ goQuote label ++ ">\n" ++ trimSpaceGo content ++
          "\n</context>" ∧
      (addContext label content msgs).getLast? = some (contextMessage label content)) := by
  constructor
  · intro hc
    simp [addContext, hc]
  · intro hc
    refine ⟨by simp [addContext, hc], by simp [addContext, hc], rfl, rfl, ?_⟩
    rw [addContext, if_neg hc]
    exact List.getLast?_concat msgs

/-- Witness for claim C10: non-blank content lands as exactly one
trailing system message behind the index-0 system prompt. -/
theorem addContext_spec_witness :
    addContext "lbl" " hello " [mkSystemMessage "sp"] =
      [mkSystemMessage "sp"] ++ [contextMessage "lbl" " hello "] ∧
    (addContext "lbl" " hello " [mkSystemMessage "sp"]).length =
      [mkSystemMessage "sp"].length + 1 ∧
    (contextMessage "lbl" " hello ").role = Role.system ∧
    (addContext "lbl" " hello " [mkSystemMessage "sp"]).getLast? =
      some (contextMessage "lbl" " hello ") :=
  ⟨((addContext_spec "lbl" " hello " [mkSystemMessage "sp"]).2 (by decide)).1,
    ((addContext_spec "lbl" " hello " [mkSystemMessage "sp"]).2 (by decide)).2.1,
    ((addContext_spec "lbl" " hello " [mkSystemMessage "sp"]).2 (by decide)).2.2.1,
    ((addContext_spec "lbl" " hello " [mkSystemMessage "sp"]).2 (by decide)).2.2.2.2⟩

end Serena
